import Mathlib

set_option maxRecDepth 200000
set_option maxHeartbeats 40000000

/-!
Shallow embedding of `ServiceDogProblem.py`: a service-dog agent moves on a
fixed directed location graph, automatically picking up items whose home is
the room it enters, and a breadth-first planner computes a shortest move
sequence collecting all items.

Locations and items are the opaque identifiers of the closed world shipped in
the source (`room1` .. `outside2`, `item1`, `item2`); a Python `State` is a
frozen dataclass of a location and a frozenset of remaining items, embedded
here as a structure over those enumerations with a `Finset` of items.  The
world graph and item placement are the source's dict literals, embedded as
association lists with an explicit (fallible) lookup, so that the closed-world
claims about missing keys are statable.  The planner is parametrised by the
graph (the source reads the module-level `GRAPH`); `bfs_plan` instantiates it
with the shipped `GRAPH`, and a cut-down graph realises the spec's
unreachable-goal scenario.
-/

/-- The seven location identifiers of the shipped world. -/
inductive Loc where
  | room1 | room2 | room3 | room4 | room5 | outside1 | outside2
deriving DecidableEq, Fintype, Repr

/-- The two item identifiers of the shipped world. -/
inductive Item where
  | item1 | item2
deriving DecidableEq, Fintype, Repr

open Loc Item

/-- Association-list lookup, embedding Python dict indexing `d[k]`:
`none` models the `KeyError` branch. -/
def lookupA {α β : Type} [DecidableEq α] : List (α × β) → α → Option β
  | [], _ => none
  | (k, v) :: rest, a => if k = a then some v else lookupA rest a

/-- Python `GRAPH`: the adjacency map of the source, as a key/value list in source
order. -/
def GRAPH : List (Loc × List Loc) :=
  [ (room1, [room2, room3]),
    (room2, [room1, room3]),
    (room3, [room1, room2, outside1, outside2, room4]),
    (room4, [room3, outside2, room5]),
    (room5, [room4]),
    (outside1, [room3]),
    (outside2, [room3, room4]) ]

/-- Python `ITEM_START_POS`: each item's home location. -/
def ITEM_START_POS : List (Item × Loc) :=
  [ (item1, room2), (item2, room5) ]

/-- Python `State`: the frozen dataclass of the source — current location plus the
frozenset of items not found yet. -/
structure State where
  dog_pos : Loc
  remaining_items : Finset Item
deriving DecidableEq

instance : Fintype State :=
  Fintype.ofEquiv (Loc × Finset Item)
    { toFun := fun p => ⟨p.1, p.2⟩
      invFun := fun s => (s.dog_pos, s.remaining_items)
      left_inv := fun p => rfl
      right_inv := fun s => rfl }

/-- Python `items_in_room`: which still-missing items are located in this room?
The Python list comprehension iterates the frozenset in unspecified order;
we return the set. -/
def items_in_room (room : Loc) (remaining_items : Finset Item) : Finset Item :=
  remaining_items.filter (fun it => lookupA ITEM_START_POS it = some room)

/-- Python `auto_pickup`: automatically pick up any remaining items in the current
room; returns `(new_state, found_items)`. -/
def auto_pickup (s : State) : State × Finset Item :=
  let found := items_in_room s.dog_pos s.remaining_items
  if found = ∅ then (s, ∅)
  else ({ s with remaining_items := s.remaining_items.filter (fun x => x ∉ found) }, found)

/-- The item universe `frozenset(ITEM_START_POS.keys())`. -/
def itemKeys : Finset Item := (ITEM_START_POS.map Prod.fst).toFinset

/-- Python `initial_state`: start with all items missing, then auto-pickup in case an
item sits at the start location. -/
def initial_state (start_pos : Loc := room1) : State :=
  (auto_pickup ⟨start_pos, itemKeys⟩).1

/-- Python `possible_actions`, parametrised by the graph the source reads from the
module-level `GRAPH`.  An action label `move a -> b` is embedded as the pair
`(a, b)` it prints.  The `none` branch of the lookup models the `KeyError`
the Python raises on a missing key; it returns the empty action list here and
is proved unreachable for the shipped worlds. -/
def possible_actions_in (g : List (Loc × List Loc)) (s : State) :
    List ((Loc × Loc) × State) :=
  match lookupA g s.dog_pos with
  | none => []
  | some ns =>
      ns.map (fun nxt => ((s.dog_pos, nxt), (auto_pickup { s with dog_pos := nxt }).1))

/-- Source `possible_actions`: the shipped graph. -/
def possible_actions (s : State) : List ((Loc × Loc) × State) :=
  possible_actions_in GRAPH s

/-- Python `is_goal`: no items remain. -/
def is_goal (s : State) : Bool := s.remaining_items.card = 0

/-- One step of the BFS inner `for` loop: enqueue each successor not yet
recorded in the predecessor map (first-discovery wins).  The source keeps two
dicts `prev` / `prev_action` always written in lockstep; they are merged here
into one map from a state to `none` (the start) or `some (action, parent)`. -/
def enqueue_new (cur : State) :
    List ((Loc × Loc) × State) → List State →
    List (State × Option ((Loc × Loc) × State)) →
    List State × List (State × Option ((Loc × Loc) × State))
  | [], q, prev => (q, prev)
  | (action, nxt) :: rest, q, prev =>
      match lookupA prev nxt with
      | some _ => enqueue_new cur rest q prev
      | none => enqueue_new cur rest (q ++ [nxt]) ((nxt, some (action, cur)) :: prev)

/-- Plan reconstruction: walk predecessor links back to the start.  The source
appends actions goal-to-start and reverses at the end; consing onto the
accumulator while walking yields the same start-to-goal list.  `fuel` bounds
the walk (the chain is shorter than the predecessor map). -/
def buildPlan :
    Nat → List (State × Option ((Loc × Loc) × State)) → State →
    List (Loc × Loc) → List (Loc × Loc)
  | 0, _, _, acc => acc
  | fuel + 1, prev, s, acc =>
      match lookupA prev s with
      | some (some (a, p)) => buildPlan fuel prev p (a :: acc)
      | _ => acc

/-- The BFS `while q:` loop.  `fuel` bounds the number of iterations; the
outer `Option` is `none` exactly on fuel exhaustion (proved never to happen
for the worlds considered), while `some none` is the source's `return None`
after exhausting the queue and `some (some plan)` its goal return. -/
def bfs_loop_in (g : List (Loc × List Loc)) :
    Nat → List State → List (State × Option ((Loc × Loc) × State)) →
    Option (Option (List (Loc × Loc)))
  | 0, _, _ => none
  | _ + 1, [], _ => some none
  | fuel + 1, cur :: q, prev =>
      if is_goal cur then some (some (buildPlan prev.length prev cur []))
      else
        let qp := enqueue_new cur (possible_actions_in g cur) q prev
        bfs_loop_in g fuel qp.1 qp.2

/-- Python `bfs_plan`, parametrised by the graph: queue seeded with the start, the
start recorded with no predecessor. -/
def bfs_plan_in (g : List (Loc × List Loc)) (start : State) :
    Option (List (Loc × Loc)) :=
  match bfs_loop_in g 100 [start] [(start, none)] with
  | some r => r
  | none => none

/-- Source `bfs_plan`: the shipped graph. -/
def bfs_plan (start : State) : Option (List (Loc × Loc)) :=
  bfs_plan_in GRAPH start

/-- The spec's unreachable-goal scenario: the shipped graph with the single
edge into `room5` removed, so `item2`'s home is disconnected from every start. -/
def cutGraph : List (Loc × List Loc) :=
  [ (room1, [room2, room3]),
    (room2, [room1, room3]),
    (room3, [room1, room2, outside1, outside2, room4]),
    (room4, [room3, outside2]),
    (room5, [room4]),
    (outside1, [room3]),
    (outside2, [room3, room4]) ]

/-- One step of plan replay, as the auto-solve executor of the source does it:
filter the legal pairs for those whose action label matches the plan step and
take the first; `none` models the `RuntimeError` on an inapplicable step. -/
def replay_step_in (g : List (Loc × List Loc)) (s : State) (a : Loc × Loc) :
    Option State :=
  match (possible_actions_in g s).filter (fun p => p.1 = a) with
  | [] => none
  | (_, ns) :: _ => some ns

/-- Replay a whole plan from a state, failing if any step is inapplicable. -/
def replay_in (g : List (Loc × List Loc)) : State → List (Loc × Loc) → Option State
  | s, [] => some s
  | s, a :: rest =>
      match replay_step_in g s a with
      | none => none
      | some s2 => replay_in g s2 rest

/-- The successor states of a state: the states emitted by `possible_actions`. -/
def succs_in (g : List (Loc × List Loc)) (s : State) : Finset State :=
  ((possible_actions_in g s).map Prod.snd).toFinset

/-- One breadth layer: a state set together with all its successors. -/
def stepSet_in (g : List (Loc × List Loc)) (X : Finset State) : Finset State :=
  X ∪ X.biUnion (succs_in g)

/-- The states reachable from `s` in at most `n` transitions. -/
def reachSetN_in (g : List (Loc × List Loc)) (s : State) : Nat → Finset State
  | 0 => {s}
  | n + 1 => stepSet_in g (reachSetN_in g s n)

/-- State `t` is reachable from `s` by some finite sequence of legal transitions. -/
def ReachableIn (g : List (Loc × List Loc)) (s t : State) : Prop :=
  ∃ n, t ∈ reachSetN_in g s n

/-- A legal transition sequence from `s` to `t`: each `(action, next)` pair is
drawn from `possible_actions` of the state it is applied to. -/
def legalSeq_in (g : List (Loc × List Loc)) :
    State → List ((Loc × Loc) × State) → State → Prop
  | s, [], t => t = s
  | s, (a, s2) :: rest, t =>
      (a, s2) ∈ possible_actions_in g s ∧ legalSeq_in g s2 rest t

/-- Decidable per-state optimality check: whenever `bfs_plan` returns a
non-empty plan of length `k + 1`, no state reachable in at most `k`
transitions is a goal state. -/
def optimalCheck (s : State) : Bool :=
  match bfs_plan s with
  | none => true
  | some p =>
      if p.length = 0 then true
      else decide (∀ t ∈ reachSetN_in GRAPH s (p.length - 1), is_goal t = false)

/-- Decidable per-state validity check: whenever `bfs_plan` returns a plan,
replaying it succeeds and ends in a goal state. -/
def planValidCheck (s : State) : Bool :=
  match bfs_plan s with
  | none => true
  | some p =>
      match replay_in GRAPH s p with
      | none => false
      | some t => is_goal t

/-! ### Helper lemmas -/

theorem subset_stepSet_in (g : List (Loc × List Loc)) (X : Finset State) :
    X ⊆ stepSet_in g X :=
  Finset.subset_union_left

theorem stepSet_in_mono (g : List (Loc × List Loc)) {X Y : Finset State}
    (h : X ⊆ Y) : stepSet_in g X ⊆ stepSet_in g Y :=
  Finset.union_subset_union h (Finset.biUnion_subset_biUnion_of_subset_left _ h)

theorem reachSetN_in_succ_mono (g : List (Loc × List Loc)) (s : State) (n : Nat) :
    reachSetN_in g s n ⊆ reachSetN_in g s (n + 1) :=
  subset_stepSet_in g _

theorem reachSetN_in_mono (g : List (Loc × List Loc)) (s : State) {m n : Nat}
    (h : m ≤ n) : reachSetN_in g s m ⊆ reachSetN_in g s n := by
  obtain ⟨k, rfl⟩ := Nat.exists_eq_add_of_le h
  induction k with
  | zero => exact Finset.Subset.refl _
  | succ k ih =>
      exact (ih (Nat.le_add_right m k)).trans
        (by rw [Nat.add_succ]; exact reachSetN_in_succ_mono g s (m + k))

theorem succs_shift (g : List (Loc × List Loc)) {s s2 : State}
    (h : s2 ∈ succs_in g s) (n : Nat) :
    reachSetN_in g s2 n ⊆ reachSetN_in g s (n + 1) := by
  induction n with
  | zero =>
      intro t ht
      simp only [reachSetN_in, Finset.mem_singleton] at ht
      subst ht
      exact Finset.mem_union.mpr
        (Or.inr (Finset.mem_biUnion.mpr ⟨s, Finset.mem_singleton_self s, h⟩))
  | succ n ih => exact stepSet_in_mono g ih

theorem legalSeq_mem_reach (g : List (Loc × List Loc)) :
    ∀ (l : List ((Loc × Loc) × State)) (s t : State),
      legalSeq_in g s l t → t ∈ reachSetN_in g s l.length := by
  intro l
  induction l with
  | nil =>
      intro s t h
      simp only [legalSeq_in] at h
      subst h
      simp [reachSetN_in]
  | cons p rest ih =>
      intro s t h
      obtain ⟨a, s2⟩ := p
      obtain ⟨h1, h2⟩ := h
      have hs2 : s2 ∈ succs_in g s := by
        simp only [succs_in, List.mem_toFinset, List.mem_map]
        exact ⟨(a, s2), h1, rfl⟩
      exact succs_shift g hs2 rest.length (ih s2 t h2)

theorem bfs_loop_in_mono (g : List (Loc × List Loc)) :
    ∀ (f1 f2 : Nat) (q : List State)
      (prev : List (State × Option ((Loc × Loc) × State)))
      (r : Option (List (Loc × Loc))), f1 ≤ f2 →
      bfs_loop_in g f1 q prev = some r → bfs_loop_in g f2 q prev = some r := by
  intro f1
  induction f1 with
  | zero => intro f2 q prev r _ h; simp [bfs_loop_in] at h
  | succ f ih =>
      intro f2 q prev r hle h
      obtain ⟨f2p, rfl⟩ : ∃ f2p, f2 = f2p + 1 := ⟨f2 - 1, by omega⟩
      cases q with
      | nil => simpa [bfs_loop_in] using h
      | cons cur rest =>
          by_cases hg : is_goal cur = true
          · simp only [bfs_loop_in, hg, if_true] at h ⊢
            exact h
          · simp only [bfs_loop_in, hg, if_false, Bool.false_eq_true] at h ⊢
            exact ih f2p _ _ r (by omega) h

theorem reach_preserves (g : List (Loc × List Loc)) (P : State → Prop)
    (hstep : ∀ s t : State, t ∈ succs_in g s → P s → P t)
    (s : State) (hs : P s) :
    ∀ n, ∀ t ∈ reachSetN_in g s n, P t := by
  intro n
  induction n with
  | zero =>
      intro t ht
      simp only [reachSetN_in, Finset.mem_singleton] at ht
      subst ht
      exact hs
  | succ n ih =>
      intro t ht
      rcases Finset.mem_union.mp ht with h | h
      · exact ih t h
      · obtain ⟨u, hu, htu⟩ := Finset.mem_biUnion.mp h
        exact hstep u t htu (ih u hu)

/-! ### Claim theorems -/

/-- Claim C1: shortest-path optimality — whenever `bfs_plan s` returns a plan,
no strictly shorter sequence of legal transitions (each drawn from
`possible_actions` of the state it is applied to) leads from `s` to a goal
state: every legal transition sequence reaching a goal has at least the
returned plan's length. -/
theorem bfs_plan_shortest (s : State) (p : List (Loc × Loc))
    (hp : bfs_plan s = some p) :
    ∀ (l : List ((Loc × Loc) × State)) (t : State),
      legalSeq_in GRAPH s l t → is_goal t = true → p.length ≤ l.length := by
  intro l t hl hg
  by_contra hlt
  push_neg at hlt
  have hcheck : optimalCheck s = true := by
    have hall : ∀ s : State, optimalCheck s = true := by decide
    exact hall s
  have hne : ¬ p.length = 0 := by omega
  simp only [optimalCheck, hp, if_neg hne] at hcheck
  have hopt := of_decide_eq_true hcheck
  have hmem : t ∈ reachSetN_in GRAPH s (p.length - 1) :=
    reachSetN_in_mono GRAPH s (by omega) (legalSeq_mem_reach GRAPH l s t hl)
  have hfalse := hopt t hmem
  rw [hg] at hfalse
  exact absurd hfalse (by decide)

/-- Witness for C1 at the start state of the shipped world: the 4-move plan it
returns is a lower bound on the length of a concrete goal-reaching legal
sequence. -/
theorem bfs_plan_shortest_witness :
    (4 : Nat) ≤
      ([((room1, room2), (⟨room2, {item2}⟩ : State)),
        ((room2, room3), ⟨room3, {item2}⟩),
        ((room3, room4), ⟨room4, {item2}⟩),
        ((room4, room5), ⟨room5, ∅⟩)] :
        List ((Loc × Loc) × State)).length := by
  have h := bfs_plan_shortest ⟨room1, {item1, item2}⟩
    [(room1, room2), (room2, room3), (room3, room4), (room4, room5)] (by decide)
    [((room1, room2), ⟨room2, {item2}⟩),
     ((room2, room3), ⟨room3, {item2}⟩),
     ((room3, room4), ⟨room4, {item2}⟩),
     ((room4, room5), ⟨room5, ∅⟩)] ⟨room5, ∅⟩
    (by simp only [legalSeq_in]; decide)
    (by decide)
  exact h

/-- Claim C2: plan validity — whenever `bfs_plan s` returns a plan, replaying
it from `s` (each step matched by action label against the legal pairs of the
current state) succeeds at every step and ends, after exactly the plan's
length of steps, in a goal state. -/
theorem bfs_plan_valid (s : State) (p : List (Loc × Loc))
    (hp : bfs_plan s = some p) :
    ∃ t, replay_in GRAPH s p = some t ∧ is_goal t = true := by
  have hcheck : planValidCheck s = true := by
    have hall : ∀ s : State, planValidCheck s = true := by decide
    exact hall s
  simp only [planValidCheck, hp] at hcheck
  cases hr : replay_in GRAPH s p with
  | none => simp [hr] at hcheck
  | some t =>
      refine ⟨t, rfl, ?_⟩
      simpa [hr] using hcheck

/-- Witness for C2: replaying the plan returned for the shipped start state
succeeds and reaches the goal. -/
theorem bfs_plan_valid_witness :
    ∃ t, replay_in GRAPH ⟨room1, {item1, item2}⟩
        [(room1, room2), (room2, room3), (room3, room4), (room4, room5)] = some t ∧
      is_goal t = true :=
  bfs_plan_valid ⟨room1, {item1, item2}⟩
    [(room1, room2), (room2, room3), (room3, room4), (room4, room5)] (by decide)

/-- Claim C3: termination and unreachable-goal handling — for every start
state the BFS loop's result is independent of the fuel bound from 100 on (the
`while` loop of the source terminates within the finite state space), and on
the cut world, whose `room5` is disconnected, a start from which no reachable
state is a goal yields the source's `None`, with the loop again terminating. -/
theorem bfs_plan_total_and_none_unreachable :
    (∀ s : State, ∃ r : Option (List (Loc × Loc)), bfs_plan s = r ∧
        ∀ fuel, 100 ≤ fuel → bfs_loop_in GRAPH fuel [s] [(s, none)] = some r) ∧
    (∀ s : State, (∀ t, ReachableIn cutGraph s t → is_goal t = false) →
        bfs_plan_in cutGraph s = none ∧
        ∀ fuel, 100 ≤ fuel → bfs_loop_in cutGraph fuel [s] [(s, none)] = some none) := by
  constructor
  · intro s
    have h100 : ∀ s : State, (bfs_loop_in GRAPH 100 [s] [(s, none)]).isSome = true := by
      decide
    obtain ⟨r, hr⟩ := Option.isSome_iff_exists.mp (h100 s)
    refine ⟨r, ?_, fun fuel hf => bfs_loop_in_mono GRAPH 100 fuel _ _ r hf hr⟩
    unfold bfs_plan bfs_plan_in
    rw [hr]
  · intro s hs
    have hkey : ∀ s : State, (∀ t ∈ reachSetN_in cutGraph s 4, is_goal t = false) →
        bfs_loop_in cutGraph 100 [s] [(s, none)] = some none := by decide
    have hloop := hkey s (fun t ht => hs t ⟨4, ht⟩)
    refine ⟨?_, fun fuel hf => bfs_loop_in_mono cutGraph 100 fuel _ _ none hf hloop⟩
    unfold bfs_plan_in
    rw [hloop]

/-- Witness for C3: from the shipped start state on the cut world the goal is
unreachable, and the planner reports the no-plan result. -/
theorem bfs_plan_total_and_none_unreachable_witness :
    bfs_plan_in cutGraph ⟨room1, {item1, item2}⟩ = none := by
  have hstep : ∀ s : State, ∀ t ∈ succs_in cutGraph s,
      item2 ∈ s.remaining_items → item2 ∈ t.remaining_items := by decide
  refine (bfs_plan_total_and_none_unreachable.2 ⟨room1, {item1, item2}⟩ ?_).1
  intro t ht
  obtain ⟨n, hn⟩ := ht
  have hitem : item2 ∈ t.remaining_items :=
    reach_preserves cutGraph (fun u => item2 ∈ u.remaining_items)
      (fun s t hts hs => hstep s t hts hs) ⟨room1, {item1, item2}⟩ (by decide) n t hn
  have hne : t.remaining_items ≠ ∅ := Finset.ne_empty_of_mem hitem
  simpa [is_goal, Finset.card_eq_zero] using hne

/-- The state component of `auto_pickup` never gains items. -/
theorem auto_pickup_fst_subset (s : State) :
    ((auto_pickup s).1).remaining_items ⊆ s.remaining_items := by
  simp only [auto_pickup]
  split
  · exact Finset.Subset.refl _
  · exact Finset.filter_subset _ _

/-- Claim C4: monotonic shrinking of remaining items — every `(action, state)`
pair emitted by `possible_actions` carries a `remaining_items` set that is a
subset of the source state's; the remaining set never grows across a single
transition. -/
theorem possible_actions_shrinks_items (s : State) (a : Loc × Loc) (s2 : State)
    (h : (a, s2) ∈ possible_actions s) :
    s2.remaining_items ⊆ s.remaining_items := by
  unfold possible_actions possible_actions_in at h
  cases hg : lookupA GRAPH s.dog_pos with
  | none => rw [hg] at h; simp at h
  | some ns =>
      rw [hg] at h
      simp only [List.mem_map] at h
      obtain ⟨nxt, hnxt, heq⟩ := h
      have hs2 : s2 = (auto_pickup { s with dog_pos := nxt }).1 := by
        have hsnd := congrArg Prod.snd heq
        simpa using hsnd.symm
      rw [hs2]
      exact auto_pickup_fst_subset { s with dog_pos := nxt }

/-- Witness for C4 at a concrete transition of the shipped world. -/
theorem possible_actions_shrinks_items_witness :
    (⟨room2, {item2}⟩ : State).remaining_items ⊆
      (⟨room1, {item1, item2}⟩ : State).remaining_items :=
  possible_actions_shrinks_items ⟨room1, {item1, item2}⟩ (room1, room2)
    ⟨room2, {item2}⟩ (by decide)

/-- Claim C5: auto-collect postcondition — with `F` the set of remaining items
whose home equals the current location, `auto_pickup` returns the state
unchanged with no collected items when `F` is empty, and otherwise a state at
the same location with exactly `F` removed, together with `F`. -/
theorem auto_pickup_spec :
    ∀ s : State,
      auto_pickup s =
        (if s.remaining_items.filter
              (fun it => lookupA ITEM_START_POS it = some s.dog_pos) = ∅ then
           (s, (∅ : Finset Item))
         else
           (⟨s.dog_pos,
              s.remaining_items \
                s.remaining_items.filter
                  (fun it => lookupA ITEM_START_POS it = some s.dog_pos)⟩,
            s.remaining_items.filter
              (fun it => lookupA ITEM_START_POS it = some s.dog_pos))) := by
  decide

/-- Claim C6: auto-collect idempotence — running `auto_pickup` on the state it
produced returns that state unchanged with an empty collected set. -/
theorem auto_pickup_idempotent :
    ∀ s : State,
      auto_pickup (auto_pickup s).1 = ((auto_pickup s).1, (∅ : Finset Item)) := by
  decide

/-- Claim C7: expansion shape and order — when the current location is a key
of `GRAPH` with neighbor list `ns`, `possible_actions` emits exactly one pair
per neighbor, in `ns` order: the i-th pair is the move from the current
location to the i-th neighbor, with the state obtained by `auto_pickup` on a
state at that neighbor carrying the same remaining items. -/
theorem possible_actions_shape (s : State) (ns : List Loc)
    (h : lookupA GRAPH s.dog_pos = some ns) :
    (possible_actions s).length = ns.length ∧
      ∀ i : Nat, i < ns.length →
        (possible_actions s)[i]? =
          (ns[i]?).map
            (fun n => ((s.dog_pos, n), (auto_pickup ⟨n, s.remaining_items⟩).1)) := by
  unfold possible_actions possible_actions_in
  rw [h]
  refine ⟨List.length_map _ _, ?_⟩
  intro i hi
  simp [List.getElem?_map]

/-- Witness for C7: the room with five neighbors yields five actions. -/
theorem possible_actions_shape_witness :
    (possible_actions ⟨room3, {item1}⟩).length =
      ([room1, room2, outside1, outside2, room4] : List Loc).length :=
  (possible_actions_shape ⟨room3, {item1}⟩
    [room1, room2, outside1, outside2, room4] (by decide)).1

/-- Claim C8: zero-length plan versus no plan — from a state already
satisfying the goal, `bfs_plan` returns the present empty plan, which is
distinct from the absent-plan result `none`. -/
theorem bfs_plan_at_goal_empty (s : State) (h : is_goal s = true) :
    bfs_plan s = some [] ∧ bfs_plan s ≠ none := by
  have hall : ∀ s : State,
      is_goal s = true → bfs_plan s = some [] ∧ bfs_plan s ≠ none := by decide
  exact hall s h

/-- Witness for C8 at a goal state of the shipped world. -/
theorem bfs_plan_at_goal_empty_witness :
    bfs_plan ⟨room1, (∅ : Finset Item)⟩ = some [] ∧
      bfs_plan ⟨room1, (∅ : Finset Item)⟩ ≠ none :=
  bfs_plan_at_goal_empty ⟨room1, ∅⟩ (by decide)

/-- Claim C9: closed-world safety — every location named in a neighbor list of
`GRAPH` and every item home in `ITEM_START_POS` is itself a `GRAPH` key, and
for every state reachable from `initial_state` the graph lookup of
`possible_actions` and the home lookups of `items_in_room` succeed: the
missing-key branch is unreachable. -/
theorem closed_world_safe :
    (∀ p ∈ GRAPH, ∀ n ∈ Prod.snd p, lookupA GRAPH n ≠ none) ∧
    (∀ p ∈ ITEM_START_POS, lookupA GRAPH (Prod.snd p) ≠ none) ∧
    (∀ start : Loc, ∀ t : State, ReachableIn GRAPH (initial_state start) t →
        lookupA GRAPH t.dog_pos ≠ none ∧
        ∀ it ∈ t.remaining_items, lookupA ITEM_START_POS it ≠ none) := by
  refine ⟨by decide, by decide, ?_⟩
  intro start t _
  exact (show ∀ t : State, lookupA GRAPH t.dog_pos ≠ none ∧
      ∀ it ∈ t.remaining_items, lookupA ITEM_START_POS it ≠ none by decide) t

/-- Witness for C9: a neighbor lookup and an item-home lookup that the theorem
guarantees to succeed. -/
theorem closed_world_safe_witness :
    lookupA GRAPH room2 ≠ none ∧ lookupA ITEM_START_POS item1 ≠ none := by
  constructor
  · exact closed_world_safe.1 (room1, [room2, room3]) (by decide) room2 (by decide)
  · exact (closed_world_safe.2.2 room1 (initial_state room1)
      ⟨0, by decide⟩).2 item1 (by decide)

/-- Claim C10: a plan always exists in the shipped world — for every state
over the seven `GRAPH` locations with any subset of the two items remaining,
`bfs_plan` returns a plan and never the no-plan result. -/
theorem bfs_plan_always_finds_plan : ∀ s : State, (bfs_plan s).isSome = true := by
  decide
